import Mathlib

/-!
Verification of the reinforcement-learning agents of `homework_fall2023`
(hw4 `ModelBasedAgent`, hw5 `DQNAgent` and `AWACAgent`) against their
natural-language specification.

The Python code is shallowly embedded: tensors become functions out of
`Fin n` (or lists), floating-point arithmetic becomes real arithmetic,
neural networks and optimizer steps become opaque function parameters, and
random sampling (`np.random.uniform`, `np.random.normal`, replay-buffer
sampling) becomes oracle arguments supplying the drawn values.  Every
definition is translated line by line from the source files named in its
doc comment.
-/

namespace HWRL

noncomputable section

/-! ### Normalization arithmetic of `ModelBasedAgent` (hw4, model_based_agent.py)

`self.eps = 1e-6` (line 71).  `_get_normed_in` (lines 73-76) normalizes the
concatenated observation/action input componentwise; `update` (line 100)
normalizes the observation delta the same way; `get_dynamics_predictions`
(lines 154-157) unnormalizes the network output.  All three are
componentwise over the feature dimension, so we embed one real component. -/

/-- `self.eps = 1e-6` from `ModelBasedAgent.__init__` (line 71). -/
def eps : ℝ := 1e-6

/-- One component of `ModelBasedAgent._get_normed_in` (lines 73-76):
`(x - obs_acs_mean) / (obs_acs_std + eps)`. -/
def getNormedIn (x mean std : ℝ) : ℝ := (x - mean) / (std + eps)

/-- One component of the delta normalization in `ModelBasedAgent.update`
(line 100): `(delta - obs_delta_mean) / (obs_delta_std + eps)`. -/
def normedDelta (delta mean std : ℝ) : ℝ := (delta - mean) / (std + eps)

/-- One component of the unnormalization in
`ModelBasedAgent.get_dynamics_predictions` (lines 155-157):
`obs + (eps + obs_delta_std) * pred_normed + obs_delta_mean`. -/
def predNextObs (obs std predNormed mean : ℝ) : ℝ :=
  obs + (eps + std) * predNormed + mean

/-- One component of the per-dimension sample mean computed by
`ModelBasedAgent.update_statistics` (lines 128-129): `tensor.mean(dim=0)`. -/
def sampleMean (l : List ℝ) : ℝ := l.sum / l.length

/-- One component of the per-dimension sample standard deviation computed by
`ModelBasedAgent.update_statistics` (lines 131-132): `tensor.std(dim=0)`,
torch's default Bessel-corrected standard deviation
`sqrt(sum (x - mean)^2 / (n - 1))`. -/
def sampleStd (l : List ℝ) : ℝ :=
  Real.sqrt ((l.map (fun x => (x - sampleMean l) ^ 2)).sum / ((l.length : ℝ) - 1))

/-! ### DQN target-critic bookkeeping (hw5, dqn_agent.py)

For claim C10 only the parameter vectors of the two critics matter, so the
critic networks are embedded as values of an abstract parameter type `P`,
and the gradient step performed by `update_critic` (optimizer, gradient
clipping, lr schedule; lines 121-142) as an opaque function `criticStep`. -/

/-- The two critic parameter vectors held by a `DQNAgent`
(`self.critic`, `self.target_critic`; dqn_agent.py lines 28-29). -/
structure DQNCritics (P : Type) where
  critic : P
  targetCritic : P

/-- `DQNAgent.update_target_critic` (lines 144-145):
`self.target_critic.load_state_dict(self.critic.state_dict())`. -/
def updateTargetCritic {P : Type} (s : DQNCritics P) : DQNCritics P :=
  { s with targetCritic := s.critic }

/-- End of `DQNAgent.__init__` (lines 28-29 and 42): both critics are built
(with parameters `c0` and `t0`) and then `self.update_target_critic()` runs. -/
def dqnInit {P : Type} (c0 t0 : P) : DQNCritics P :=
  updateTargetCritic { critic := c0, targetCritic := t0 }

/-- `DQNAgent.update` (lines 147-166), restricted to its effect on the two
critics and the `"update_target"` metrics entry: `update_critic` performs a
gradient step on the online critic (embedded as `criticStep`), then the
target critic is overwritten exactly when `step % target_update_period == 0`,
which is also the value stored in the returned metrics. -/
def dqnUpdate {P : Type} (criticStep : P → P) (targetUpdatePeriod : ℕ)
    (s : DQNCritics P) (step : ℕ) : DQNCritics P × Bool :=
  let s1 : DQNCritics P := { s with critic := criticStep s.critic }
  let updateTarget : Bool := step % targetUpdatePeriod == 0
  (if updateTarget then updateTargetCritic s1 else s1, updateTarget)

/-! ### Tensor primitives shared by the hw5 agents

A batch of size `n` is a function out of `Fin n`; the discrete action space
of size `A + 1` is `Fin (A + 1)` (DQN requires a nonempty discrete action
space).  A critic network is its input/output function `Obs → Fin (A+1) → ℝ`
(the network weights play no role in the loss formulas). -/

/-- `torch.argmax(dim=-1)`: index of the first maximal entry.  The fold
keeps the current candidate on ties, so the earliest maximal index wins. -/
def argmaxFin {A : ℕ} (f : Fin (A + 1) → ℝ) : Fin (A + 1) :=
  (List.finRange (A + 1)).foldl (fun best j => if f best < f j then j else best) 0

/-- `nn.MSELoss()` with its default mean reduction: the average squared
difference over the batch (dqn_agent.py line 40). -/
def mseLoss {n : ℕ} (input target : Fin n → ℝ) : ℝ :=
  (∑ i, (input i - target i) ^ 2) / n

lemma argmaxFin_foldl_le {A : ℕ} (f : Fin (A + 1) → ℝ) (l : List (Fin (A + 1)))
    (acc : Fin (A + 1)) :
    f acc ≤ f (l.foldl (fun best j => if f best < f j then j else best) acc) ∧
    ∀ x ∈ l, f x ≤ f (l.foldl (fun best j => if f best < f j then j else best) acc) := by
  induction l generalizing acc with
  | nil => exact ⟨le_refl _, by simp⟩
  | cons y ys ih =>
    constructor
    · simp only [List.foldl_cons]
      by_cases h : f acc < f y
      · simp only [if_pos h]
        exact le_trans (le_of_lt h) (ih y).1
      · simp only [if_neg h]
        exact (ih acc).1
    · intro x hx
      rcases List.mem_cons.mp hx with hxy | hxys
      · subst hxy
        simp only [List.foldl_cons]
        by_cases h : f acc < f x
        · simp only [if_pos h]
          exact (ih x).1
        · simp only [if_neg h]
          exact le_trans (le_of_not_lt h) (ih acc).1
      · simp only [List.foldl_cons]
        by_cases h : f acc < f y
        · simp only [if_pos h]
          exact (ih y).2 x hxys
        · simp only [if_neg h]
          exact (ih acc).2 x hxys

/-- `argmaxFin` attains the maximum of its input. -/
lemma argmaxFin_is_max {A : ℕ} (f : Fin (A + 1) → ℝ) (j : Fin (A + 1)) :
    f j ≤ f (argmaxFin f) :=
  (argmaxFin_foldl_le f (List.finRange (A + 1)) 0).2 j (List.mem_finRange j)

/-! ### `DQNAgent.compute_critic_loss` (hw5, dqn_agent.py lines 64-119) -/

/-- The networks and scalar hyperparameters of a `DQNAgent` that
`compute_critic_loss` reads (dqn_agent.py lines 28-38). -/
structure DQNAgent (Obs : Type) (A : ℕ) where
  critic : Obs → Fin (A + 1) → ℝ
  targetCritic : Obs → Fin (A + 1) → ℝ
  discount : ℝ
  useDoubleQ : Bool

/-- `DQNAgent.compute_critic_loss` (lines 82-106), translated statement by
statement: `next_qa_values = target_critic(next_obs)`; `next_action` is the
argmax of the online critic at `next_obs` when `use_double_q` else of
`next_qa_values`; `next_q_values` gathers `next_qa_values` at `next_action`;
`target_values = reward + discount * where(done, 0, next_q_values)`;
`q_values` gathers `critic(obs)` at the data actions; the result is the MSE
loss between `q_values` and `target_values`. -/
def computeCriticLoss {Obs : Type} {A n : ℕ} (ag : DQNAgent Obs A)
    (obs : Fin n → Obs) (action : Fin n → Fin (A + 1)) (reward : Fin n → ℝ)
    (nextObs : Fin n → Obs) (done : Fin n → Bool) : ℝ :=
  let next_qa_values := fun i => ag.targetCritic (nextObs i)
  let next_action := fun i =>
    if ag.useDoubleQ then argmaxFin (ag.critic (nextObs i))
    else argmaxFin (next_qa_values i)
  let next_q_values := fun i => next_qa_values i (next_action i)
  let target_values := fun i =>
    reward i + ag.discount * (if done i then 0 else next_q_values i)
  let qa_values := fun i => ag.critic (obs i)
  let q_values := fun i => qa_values i (action i)
  mseLoss q_values target_values

/-- The network whose argmax selects the bootstrap action in
`compute_critic_loss`: the online critic under double-Q, the target critic
otherwise (dqn_agent.py lines 87-90). -/
def selectionNet {Obs : Type} {A : ℕ} (ag : DQNAgent Obs A) : Obs → Fin (A + 1) → ℝ :=
  if ag.useDoubleQ then ag.critic else ag.targetCritic

/-! ### `AWACAgent` (hw5, awac_agent.py)

`AWACAgent` subclasses `DQNAgent` and adds a categorical actor; the actor
network is embedded by its probability table `actorProbs`
(`self.actor(obs).probs`), with `log_prob(a) = log (probs a)`. -/

/-- The networks and scalar hyperparameters of an `AWACAgent` read by
`compute_critic_loss`, `compute_advantage` and `update_actor`
(awac_agent.py lines 19-25 plus the inherited critics). -/
structure AWACAgent (Obs : Type) (A : ℕ) where
  critic : Obs → Fin (A + 1) → ℝ
  targetCritic : Obs → Fin (A + 1) → ℝ
  actorProbs : Obs → Fin (A + 1) → ℝ
  discount : ℝ
  temperature : ℝ

/-- `AWACAgent.compute_critic_loss` (awac_agent.py lines 27-54), statement
by statement: `next_qa_values = target_critic(next_observations)`;
`next_qs = (next_qa_values * actor(next_observations).probs).sum(dim=-1)`;
`target_values = rewards + discount * where(dones > 0, 0, next_qs)`;
`q_values` gathers `critic(observations)` at the data actions; result is
the MSE loss between `q_values` and `target_values`. -/
def awacComputeCriticLoss {Obs : Type} {A n : ℕ} (ag : AWACAgent Obs A)
    (observations : Fin n → Obs) (actions : Fin n → Fin (A + 1))
    (rewards : Fin n → ℝ) (nextObservations : Fin n → Obs)
    (dones : Fin n → ℝ) : ℝ :=
  let next_qa_values := fun i => ag.targetCritic (nextObservations i)
  let next_qs := fun i =>
    ∑ a, next_qa_values i a * ag.actorProbs (nextObservations i) a
  let target_values := fun i =>
    rewards i + ag.discount * (if dones i > 0 then 0 else next_qs i)
  let qa_values := fun i => ag.critic (observations i)
  let q_values := fun i => qa_values i (actions i)
  mseLoss q_values target_values

/-- `AWACAgent.compute_advantage` (awac_agent.py lines 69-82):
`qa_values = target_critic(observations)`; `q_values` gathers at the data
actions; `values = (action_dist.probs * qa_values).sum(dim=-1)`; the result
is `q_values - values`.  `actionDistProbs` embeds the `action_dist`
argument. -/
def computeAdvantage {Obs : Type} {A n : ℕ} (ag : AWACAgent Obs A)
    (observations : Fin n → Obs) (actions : Fin n → Fin (A + 1))
    (actionDistProbs : Fin n → Fin (A + 1) → ℝ) : Fin n → ℝ :=
  let qa_values := fun i => ag.targetCritic (observations i)
  let q_values := fun i => qa_values i (actions i)
  let values := fun i => ∑ a, actionDistProbs i a * qa_values i a
  fun i => q_values i - values i

/-- The loss value minimized by `AWACAgent.update_actor` (awac_agent.py
lines 84-104): the batch mean of
`-actor(observations).log_prob(actions) *
 exp(compute_advantage(observations, actions, actor(observations)) /
     temperature)`.
`.detach()` only stops gradients and leaves the value unchanged, so it has
no counterpart in the value-level embedding. -/
def updateActorLoss {Obs : Type} {A n : ℕ} (ag : AWACAgent Obs A)
    (observations : Fin n → Obs) (actions : Fin n → Fin (A + 1)) : ℝ :=
  (∑ i, -Real.log (ag.actorProbs (observations i) (actions i)) *
      Real.exp (computeAdvantage ag observations actions
        (fun j => ag.actorProbs (observations j)) i / ag.temperature)) / n

/-! ### Theorems for claims C1, C2, C6 -/

/-- C1: `DQNAgent.compute_critic_loss` returns the MSE between the online
critic's Q-values gathered at the data actions and the Bellman TD target
`reward + discount * (0 if done else Q_target(next_obs, a*))`, where `a*`
is the argmax over actions of the online critic's Q-values at `next_obs`
when `use_double_q` is true and of the target critic's Q-values otherwise;
the second conjunct checks `a*` really maximizes the selecting network's
Q-values. -/
theorem dqn_critic_loss_bellman {Obs : Type} {A n : ℕ} (ag : DQNAgent Obs A)
    (obs : Fin n → Obs) (action : Fin n → Fin (A + 1)) (reward : Fin n → ℝ)
    (nextObs : Fin n → Obs) (done : Fin n → Bool) :
    computeCriticLoss ag obs action reward nextObs done =
      (∑ i, (ag.critic (obs i) (action i) -
        (reward i + ag.discount * (if done i then 0 else
          ag.targetCritic (nextObs i)
            (argmaxFin (selectionNet ag (nextObs i)))))) ^ 2) / n ∧
    ∀ i (a : Fin (A + 1)),
      selectionNet ag (nextObs i) a ≤
        selectionNet ag (nextObs i) (argmaxFin (selectionNet ag (nextObs i))) := by
  constructor
  · unfold computeCriticLoss mseLoss selectionNet
    cases h : ag.useDoubleQ <;> simp [h]
  · intro i a
    exact argmaxFin_is_max (selectionNet ag (nextObs i)) a

/-- C2: `AWACAgent.compute_critic_loss` returns the MSE between the online
critic's Q-values gathered at the data actions and the TD target
`rewards + discount * (0 where dones > 0, else Σ_a π(a|s') Q_target(s', a))`,
the expectation of the target critic's Q-values at the next observation
under the actor's distribution. -/
theorem awac_critic_loss_bellman {Obs : Type} {A n : ℕ} (ag : AWACAgent Obs A)
    (observations : Fin n → Obs) (actions : Fin n → Fin (A + 1))
    (rewards : Fin n → ℝ) (nextObservations : Fin n → Obs)
    (dones : Fin n → ℝ) :
    awacComputeCriticLoss ag observations actions rewards nextObservations dones =
      (∑ i, (ag.critic (observations i) (actions i) -
        (rewards i + ag.discount * (if dones i > 0 then 0 else
          ∑ a, ag.actorProbs (nextObservations i) a *
            ag.targetCritic (nextObservations i) a))) ^ 2) / n := by
  unfold awacComputeCriticLoss mseLoss
  have hsum : ∀ o : Obs,
      (∑ a : Fin (A + 1), ag.targetCritic o a * ag.actorProbs o a) =
        ∑ a : Fin (A + 1), ag.actorProbs o a * ag.targetCritic o a :=
    fun o => Finset.sum_congr rfl fun a _ => mul_comm _ _
  simp only [hsum]

/-- C6: `AWACAgent.update_actor` minimizes the batch mean of
`-log π(a|s) * exp(A(s,a) / temperature)`, where the advantage computed by
`compute_advantage` (called with the actor's own distribution) is the
target critic's Q-value gathered at the data action minus the expectation
of the target critic's Q-values under the actor's distribution. -/
theorem awac_actor_loss_awac {Obs : Type} {A n : ℕ} (ag : AWACAgent Obs A)
    (observations : Fin n → Obs) (actions : Fin n → Fin (A + 1)) :
    updateActorLoss ag observations actions =
      (∑ i, -Real.log (ag.actorProbs (observations i) (actions i)) *
        Real.exp ((ag.targetCritic (observations i) (actions i) -
          ∑ a, ag.actorProbs (observations i) a *
            ag.targetCritic (observations i) a) / ag.temperature)) / n ∧
    ∀ (actionDistProbs : Fin n → Fin (A + 1) → ℝ) (i : Fin n),
      computeAdvantage ag observations actions actionDistProbs i =
        ag.targetCritic (observations i) (actions i) -
          ∑ a, actionDistProbs i a * ag.targetCritic (observations i) a := by
  constructor
  · unfold updateActorLoss computeAdvantage
    simp
  · intro actionDistProbs i
    unfold computeAdvantage
    simp

/-! ### `ModelBasedAgent` MPC (hw4, model_based_agent.py lines 160-291)

The ensemble's neural dynamics models are opaque, so we embed
`get_dynamics_predictions(i, obs, acs)` as an abstract per-row function
`dynamics i : Obs → Act → Obs` (the network and `env.get_reward` both act
rowwise on batches) and `env.get_reward` as `reward : Obs → Act → ℝ`.
Action sequences are `Fin (N + 1) → ℕ → Act` (the code requires at least
one candidate sequence; time index `t` ranges over `range H`). -/

/-- The parts of a `ModelBasedAgent` read by `evaluate_action_sequences`
and `get_action`: the per-member next-observation prediction
`get_dynamics_predictions` (lines 134-158) and the environment reward
`env.get_reward` (line 213), both taken rowwise. `E` is `ensemble_size`. -/
structure MBAgent (Obs Act : Type) (E : ℕ) where
  dynamics : Fin E → Obs → Act → Obs
  reward : Obs → Act → ℝ

/-- One iteration of the horizon loop of `evaluate_action_sequences`
(lines 183-222): each ensemble member advances its own rollout with its own
prediction, the reward of the step is taken at the predicted next
observation and the current action, and is accumulated into
`sum_of_rewards`. The state is `(sum_of_rewards, obs)`. -/
def evalStep {Obs Act : Type} {E N : ℕ} (ag : MBAgent Obs Act E)
    (action_sequences : Fin N → ℕ → Act)
    (s : (Fin E → Fin N → ℝ) × (Fin E → Fin N → Obs)) (t : ℕ) :
    (Fin E → Fin N → ℝ) × (Fin E → Fin N → Obs) :=
  let next_obs := fun i n => ag.dynamics i (s.2 i n) (action_sequences n t)
  let rewards := fun i n => ag.reward (next_obs i n) (action_sequences n t)
  (fun i n => s.1 i n + rewards i n, next_obs)

/-- `ModelBasedAgent.evaluate_action_sequences` (lines 160-225):
`sum_of_rewards` starts at zero, every rollout starts at the tiled initial
observation, the horizon loop runs `evalStep` for `t = 0, ..., H-1`, and
the result is the mean of `sum_of_rewards` over the ensemble axis. -/
def evaluateActionSequences {Obs Act : Type} {E N : ℕ} (ag : MBAgent Obs Act E)
    (obs : Obs) (H : ℕ) (action_sequences : Fin N → ℕ → Act) : Fin N → ℝ :=
  let final := (List.range H).foldl (evalStep ag action_sequences)
    (fun _ _ => 0, fun _ _ => obs)
  fun n => (∑ i, final.1 i n) / E

/-- The `t`-step rollout of ensemble member `i` from `obs0` under the
action stream `acts`, the reference trajectory the claim describes:
member `i` advances only with its own prediction. -/
def rollout {Obs Act : Type} {E : ℕ} (ag : MBAgent Obs Act E) (obs0 : Obs)
    (i : Fin E) (acts : ℕ → Act) : ℕ → Obs
  | 0 => obs0
  | t + 1 => ag.dynamics i (rollout ag obs0 i acts t) (acts t)

lemma evalLoop_spec {Obs Act : Type} {E N : ℕ} (ag : MBAgent Obs Act E)
    (obs : Obs) (action_sequences : Fin N → ℕ → Act) (H : ℕ) (i : Fin E)
    (n : Fin N) :
    ((List.range H).foldl (evalStep ag action_sequences)
        (fun _ _ => 0, fun _ _ => obs)).1 i n =
      (∑ t ∈ Finset.range H,
        ag.reward (rollout ag obs i (action_sequences n) (t + 1))
          (action_sequences n t)) ∧
    ((List.range H).foldl (evalStep ag action_sequences)
        (fun _ _ => 0, fun _ _ => obs)).2 i n =
      rollout ag obs i (action_sequences n) H := by
  induction H with
  | zero => simp [rollout]
  | succ H ih =>
    rw [List.range_succ, List.foldl_append]
    constructor
    · simp only [List.foldl_cons, List.foldl_nil]
      show (evalStep ag action_sequences _ H).1 i n = _
      simp only [evalStep]
      rw [ih.1, ih.2, Finset.sum_range_succ]
      simp [rollout]
    · simp only [List.foldl_cons, List.foldl_nil]
      show (evalStep ag action_sequences _ H).2 i n = _
      simp only [evalStep]
      rw [ih.2]
      simp [rollout]

/-! ### Theorems for claims C4, C5 -/

/-- C4: `evaluate_action_sequences` returns, for each candidate sequence,
the mean over the `ensemble_size` dynamics models of the sum over the
horizon of `env.get_reward` evaluated on that model's own predicted
rollout: member `i`'s trajectory is `rollout ag obs i`, advanced at every
step by `i`'s own prediction, and the reward of step `t` is taken at the
predicted observation after `t + 1` steps together with the step's
action. -/
theorem evaluate_action_sequences_ensemble_mean {Obs Act : Type} {E N : ℕ}
    (ag : MBAgent Obs Act E) (obs : Obs) (H : ℕ)
    (action_sequences : Fin N → ℕ → Act) (n : Fin N) :
    evaluateActionSequences ag obs H action_sequences n =
      (∑ i : Fin E, ∑ t ∈ Finset.range H,
        ag.reward (rollout ag obs i (action_sequences n) (t + 1))
          (action_sequences n t)) / E := by
  unfold evaluateActionSequences
  congr 1
  exact Finset.sum_congr rfl fun i _ =>
    (evalLoop_spec ag obs action_sequences H i n).1

/-- `ModelBasedAgent.get_action` for `mpc_strategy == "random"`
(lines 241-246): evaluate every sampled sequence, take `np.argmax` of the
rewards, return the first action of that sequence.  The uniform sampling
of `action_sequences` (lines 235-239) is embedded as the oracle argument
holding the drawn sequences. -/
def getActionRandom {Obs Act : Type} {E N : ℕ} (ag : MBAgent Obs Act E)
    (H : ℕ) (obs : Obs) (action_sequences : Fin (N + 1) → ℕ → Act) : Act :=
  let rewards := evaluateActionSequences ag obs H action_sequences
  let best_index := argmaxFin rewards
  action_sequences best_index 0

/-- C5: with the random MPC strategy, `get_action` returns the first action
of a sampled sequence whose evaluated sum of rewards (as computed by
`evaluate_action_sequences`) is maximal among all sampled sequences. -/
theorem get_action_random_mpc {Obs Act : Type} {E N : ℕ}
    (ag : MBAgent Obs Act E) (H : ℕ) (obs : Obs)
    (action_sequences : Fin (N + 1) → ℕ → Act) :
    ∃ best : Fin (N + 1),
      getActionRandom ag H obs action_sequences = action_sequences best 0 ∧
      ∀ j : Fin (N + 1),
        evaluateActionSequences ag obs H action_sequences j ≤
          evaluateActionSequences ag obs H action_sequences best := by
  refine ⟨argmaxFin (evaluateActionSequences ag obs H action_sequences), rfl, ?_⟩
  intro j
  exact argmaxFin_is_max _ j

/-! ### Cross-entropy-method planning (hw4, model_based_agent.py lines 247-289)

A candidate action sequence is a `CemSeq`: time step and action dimension
to value.  The code flattens to `(horizon * ac_dim)` before `np.random.normal`
and reshapes back; the embedding keeps the two-dimensional indexing, with
the normal draw an oracle `sampler` that receives the loop index (the RNG
state) and the mean and standard deviation the code passes to
`np.random.normal`. -/

/-- One CEM candidate action sequence: `(horizon, ac_dim)`-indexed reals. -/
def CemSeq : Type := ℕ → ℕ → ℝ

/-- The Python slice `l[-k:]`: the last `k` elements when `k ≥ 1`, the
whole list when `k = 0` (since `-0` is `0`). -/
def lastK {α : Type} (k : ℕ) (l : List α) : List α :=
  if k = 0 then l else l.drop (l.length - k)

/-- `rewards.argsort()[-cem_num_elites:]` (lines 249 and 278): the indices
of the `k` highest-reward candidates, in ascending order of reward
(`np.argsort` sorts ascending; the embedding sorts the index list by
reward). -/
def argsortLastK {M : ℕ} (rewards : Fin M → ℝ) (k : ℕ) : List (Fin M) :=
  lastK k ((List.finRange M).mergeSort (fun a b => decide (rewards a ≤ rewards b)))

/-- `action_sequences[elite_indices].mean(axis=0)` (lines 251 and 280):
componentwise mean over the sampled elite axis. -/
def eliteMean {M : ℕ} (elite : List (Fin M)) (action_sequences : Fin M → CemSeq) :
    CemSeq :=
  fun t j => (elite.map fun n => action_sequences n t j).sum / elite.length

/-- `action_sequences[elite_indices].std(axis=0)` (lines 252 and 281):
`np.std`, the population standard deviation `sqrt(mean((x - mean)^2))`,
componentwise over the sampled elite axis. -/
def eliteStd {M : ℕ} (elite : List (Fin M)) (action_sequences : Fin M → CemSeq) :
    CemSeq :=
  fun t j =>
    Real.sqrt ((elite.map fun n =>
      (action_sequences n t j - eliteMean elite action_sequences t j) ^ 2).sum /
        elite.length)

/-- One iteration of `for i in range(1, cem_num_iters)` (lines 255-288),
state `(elite_mean, elite_std)`: resample all sequences from
`np.random.normal(elite_mean, elite_std)` (the oracle `sampler` at loop
index `i`), evaluate them, select the elites with `argsort()[-k:]`, and
smooth: `elite_mean := α * batch_mean + (1 - α) * elite_mean`,
`elite_std := (α * batch_std² + (1 - α) * elite_std²) ** 0.5`. -/
def cemStep {Obs : Type} {E N : ℕ} (ag : MBAgent Obs (ℕ → ℝ) E) (H k : ℕ)
    (α : ℝ) (obs : Obs) (sampler : ℕ → CemSeq → CemSeq → Fin (N + 1) → CemSeq)
    (s : CemSeq × CemSeq) (i : ℕ) : CemSeq × CemSeq :=
  let action_sequences := sampler i s.1 s.2
  let rewards := evaluateActionSequences ag obs H action_sequences
  let elite_indices := argsortLastK rewards k
  let batch_mean := eliteMean elite_indices action_sequences
  let batch_std := eliteStd elite_indices action_sequences
  (fun t j => α * batch_mean t j + (1 - α) * s.1 t j,
   fun t j => Real.sqrt (α * batch_std t j ^ 2 + (1 - α) * s.2 t j ^ 2))

/-- `ModelBasedAgent.get_action` for `mpc_strategy == "cem"`
(lines 247-289): evaluate the initial uniformly drawn batch (`initSeqs`,
the oracle for line 235), fit the elite mean and standard deviation from
its `argsort()[-k:]` elites, run the loop body `cemStep` for
`i = 1, ..., cem_num_iters - 1`, and return `elite_mean[0]`, the first
action of the final elite mean sequence. -/
def getActionCem {Obs : Type} {E N : ℕ} (ag : MBAgent Obs (ℕ → ℝ) E)
    (H k numIters : ℕ) (α : ℝ) (obs : Obs) (initSeqs : Fin (N + 1) → CemSeq)
    (sampler : ℕ → CemSeq → CemSeq → Fin (N + 1) → CemSeq) : ℕ → ℝ :=
  let rewards := evaluateActionSequences ag obs H initSeqs
  let elite_indices := argsortLastK rewards k
  let final := (List.range' 1 (numIters - 1)).foldl
    (cemStep ag H k α obs sampler)
    (eliteMean elite_indices initSeqs, eliteStd elite_indices initSeqs)
  final.1 0

/-- Modelled from the claim: one CEM evaluation round carries
`(current batch, (elite_mean, elite_std))` and (1) evaluates the batch and
selects the `cem_num_elites` highest-reward sequences, (2) refits the elite
mean and standard deviation with smoothing factor `cem_alpha` (means
combined linearly, standard deviations through variances), (3) resamples
all sequences from a normal distribution with the refit mean and standard
deviation (the oracle `sampler` at the next round's index). -/
def cemSpecRound {Obs : Type} {E N : ℕ} (ag : MBAgent Obs (ℕ → ℝ) E)
    (H k : ℕ) (α : ℝ) (obs : Obs)
    (sampler : ℕ → CemSeq → CemSeq → Fin (N + 1) → CemSeq)
    (s : (Fin (N + 1) → CemSeq) × (CemSeq × CemSeq)) (r : ℕ) :
    (Fin (N + 1) → CemSeq) × (CemSeq × CemSeq) :=
  let rewards := evaluateActionSequences ag obs H s.1
  let elite_indices := argsortLastK rewards k
  let batch_mean := eliteMean elite_indices s.1
  let batch_std := eliteStd elite_indices s.1
  let newMean : CemSeq := fun t j => α * batch_mean t j + (1 - α) * s.2.1 t j
  let newStd : CemSeq := fun t j =>
    Real.sqrt (α * batch_std t j ^ 2 + (1 - α) * s.2.2 t j ^ 2)
  (sampler (r + 1) newMean newStd, (newMean, newStd))

/-- Modelled from the claim: CEM evaluates the initial uniformly random
batch and initializes the elite statistics from its `k` highest-reward
sequences (round 0, where there is no previous statistic to smooth with),
then runs `cem_num_iters - 1` further rounds of `cemSpecRound` — so
`cem_num_iters` evaluation rounds in total, each selecting elites,
refitting with smoothing and resampling — and finally returns the first
action of the final elite mean sequence. -/
def cemSpecPlan {Obs : Type} {E N : ℕ} (ag : MBAgent Obs (ℕ → ℝ) E)
    (H k numIters : ℕ) (α : ℝ) (obs : Obs) (initSeqs : Fin (N + 1) → CemSeq)
    (sampler : ℕ → CemSeq → CemSeq → Fin (N + 1) → CemSeq) : ℕ → ℝ :=
  let rewards := evaluateActionSequences ag obs H initSeqs
  let elite_indices := argsortLastK rewards k
  let mean0 := eliteMean elite_indices initSeqs
  let std0 := eliteStd elite_indices initSeqs
  let final := (List.range' 1 (numIters - 1)).foldl
    (cemSpecRound ag H k α obs sampler) (sampler 1 mean0 std0, (mean0, std0))
  final.2.1 0

lemma cemSpec_loop_align {Obs : Type} {E N : ℕ} (ag : MBAgent Obs (ℕ → ℝ) E)
    (H k : ℕ) (α : ℝ) (obs : Obs)
    (sampler : ℕ → CemSeq → CemSeq → Fin (N + 1) → CemSeq) :
    ∀ (m a : ℕ) (μ σ : CemSeq),
      (List.range' a m).foldl (cemSpecRound ag H k α obs sampler)
          (sampler a μ σ, (μ, σ)) =
        (sampler (a + m)
          ((List.range' a m).foldl (cemStep ag H k α obs sampler) (μ, σ)).1
          ((List.range' a m).foldl (cemStep ag H k α obs sampler) (μ, σ)).2,
         (List.range' a m).foldl (cemStep ag H k α obs sampler) (μ, σ)) := by
  intro m
  induction m with
  | zero => intro a μ σ; simp
  | succ m ih =>
    intro a μ σ
    rw [List.range'_succ, List.foldl_cons, List.foldl_cons]
    have hstep : cemSpecRound ag H k α obs sampler (sampler a μ σ, (μ, σ)) a =
        (sampler (a + 1) (cemStep ag H k α obs sampler (μ, σ) a).1
          (cemStep ag H k α obs sampler (μ, σ) a).2,
         ((cemStep ag H k α obs sampler (μ, σ) a).1,
          (cemStep ag H k α obs sampler (μ, σ) a).2)) := rfl
    rw [hstep]
    have harith : a + 1 + m = a + (m + 1) := by omega
    rw [ih (a + 1) (cemStep ag H k α obs sampler (μ, σ) a).1
      (cemStep ag H k α obs sampler (μ, σ) a).2, harith]

lemma argsortLastK_length {M : ℕ} (rewards : Fin M → ℝ) (k : ℕ)
    (hk1 : 1 ≤ k) (hkM : k ≤ M) : (argsortLastK rewards k).length = k := by
  unfold argsortLastK lastK
  rw [if_neg (by omega)]
  rw [List.length_drop, List.length_mergeSort, List.length_finRange]
  omega

lemma argsortLastK_elite {M : ℕ} (rewards : Fin M → ℝ) (k : ℕ)
    (a : Fin M) (ha : a ∈ argsortLastK rewards k) (b : Fin M)
    (hb : b ∉ argsortLastK rewards k) : rewards b ≤ rewards a := by
  have htrans : ∀ x y z : Fin M,
      decide (rewards x ≤ rewards y) = true →
      decide (rewards y ≤ rewards z) = true →
      decide (rewards x ≤ rewards z) = true := by
    intro x y z hxy hyz
    simp only [decide_eq_true_eq] at hxy hyz ⊢
    linarith
  have htotal : ∀ x y : Fin M,
      (decide (rewards x ≤ rewards y) || decide (rewards y ≤ rewards x)) = true := by
    intro x y
    simpa using le_total (rewards x) (rewards y)
  have hsorted := List.sorted_mergeSort htrans htotal (List.finRange M)
  set sorted := (List.finRange M).mergeSort
    (fun x y => decide (rewards x ≤ rewards y)) with hs
  have hmem : b ∈ sorted := by
    rw [hs]
    exact List.mem_mergeSort.2 (List.mem_finRange b)
  by_cases hk : k = 0
  · exact absurd (show b ∈ argsortLastK rewards k by
      unfold argsortLastK lastK
      rw [if_pos hk, ← hs]
      exact hmem) hb
  · have hsplit : sorted = sorted.take (sorted.length - k) ++ argsortLastK rewards k := by
      conv_lhs => rw [← List.take_append_drop (sorted.length - k) sorted]
      unfold argsortLastK lastK
      rw [if_neg hk, ← hs]
    rw [hsplit, List.pairwise_append] at hsorted
    have hbtake : b ∈ sorted.take (sorted.length - k) := by
      rw [hsplit] at hmem
      rcases List.mem_append.mp hmem with h | h
      · exact h
      · exact absurd h hb
    have := hsorted.2.2 b hbtake a ha
    simpa using this

/-- C3: with the CEM strategy, `get_action` computes exactly the planning
procedure the claim describes (`cemSpecPlan`): the initial uniformly
random batch is evaluated, each of the `cem_num_iters` total evaluation
rounds selects the `cem_num_elites` highest-reward sequences, refits the
elite mean and standard deviation with smoothing factor `cem_alpha` (means
linearly, standard deviations through variances), resamples every sequence
from a normal distribution with the current elite statistics, and the
first action of the final elite mean sequence is returned.  The remaining
conjuncts check the elite selection: `argsort()[-k:]` yields exactly `k`
indices, and every selected index has reward at least that of every
unselected index. -/
theorem get_action_cem_follows_spec {Obs : Type} {E N : ℕ}
    (ag : MBAgent Obs (ℕ → ℝ) E) (H k numIters : ℕ) (α : ℝ) (obs : Obs)
    (initSeqs : Fin (N + 1) → CemSeq)
    (sampler : ℕ → CemSeq → CemSeq → Fin (N + 1) → CemSeq)
    (M : ℕ) (sampleRewards : Fin M → ℝ) (hk1 : 1 ≤ k) (hkM : k ≤ M) :
    getActionCem ag H k numIters α obs initSeqs sampler =
      cemSpecPlan ag H k numIters α obs initSeqs sampler ∧
    (argsortLastK sampleRewards k).length = k ∧
    ∀ a ∈ argsortLastK sampleRewards k, ∀ b,
      b ∉ argsortLastK sampleRewards k → sampleRewards b ≤ sampleRewards a := by
  refine ⟨?_, argsortLastK_length sampleRewards k hk1 hkM,
    fun a ha b hb => argsortLastK_elite sampleRewards k a ha b hb⟩
  unfold getActionCem cemSpecPlan
  dsimp only
  rw [cemSpec_loop_align ag H k α obs sampler (numIters - 1) 1]

/-- Concrete inputs for the C3 witness: a one-member ensemble whose model
is the identity on observations, constant reward 1, one candidate
sequence, and a sampler returning the mean. -/
def cemWitnessAgent : MBAgent ℕ (ℕ → ℝ) 1 :=
  { dynamics := fun _ o _ => o, reward := fun _ _ => 1 }

/-- Initial candidate batch for the C3 witness. -/
def cemWitnessInit : Fin 1 → CemSeq := fun _ _ _ => 0

/-- Normal-draw oracle for the C3 witness: returns the mean. -/
def cemWitnessSampler : ℕ → CemSeq → CemSeq → Fin 1 → CemSeq :=
  fun _ mean _ _ => mean

/-- Reward vector for the C3 witness's elite-selection conjuncts. -/
def cemWitnessRewards : Fin 1 → ℝ := fun _ => 1

/-- C3 witness: the CEM theorem applied at concrete inputs with one
candidate sequence, one elite, two iterations and smoothing 1/2. -/
theorem get_action_cem_follows_spec_witness :
    1 ≤ 1 ∧ (1 : ℕ) ≤ 1 ∧
    (getActionCem cemWitnessAgent 1 1 2 (1 / 2) 0 cemWitnessInit cemWitnessSampler =
      cemSpecPlan cemWitnessAgent 1 1 2 (1 / 2) 0 cemWitnessInit cemWitnessSampler ∧
    (argsortLastK cemWitnessRewards 1).length = 1 ∧
    ∀ a ∈ argsortLastK cemWitnessRewards 1, ∀ b,
      b ∉ argsortLastK cemWitnessRewards 1 →
        cemWitnessRewards b ≤ cemWitnessRewards a) :=
  ⟨le_refl 1, le_refl 1,
    get_action_cem_follows_spec cemWitnessAgent 1 1 2 (1 / 2) 0 cemWitnessInit
      cemWitnessSampler 1 cemWitnessRewards (le_refl 1) (le_refl 1)⟩

/-! ### Theorems for claims C8, C9, C10 -/

/-- C8: the delta normalization of `ModelBasedAgent.update` (line 100) and
the unnormalization of `ModelBasedAgent.get_dynamics_predictions`
(lines 155-157) are exact inverses: with the statistics held fixed and a
nonnegative standard deviation,
`obs + (eps + std) * ((delta - mean) / (std + eps)) + mean = obs + delta`,
so a model output equal to the normalized delta predicts exactly
`obs + delta`. -/
theorem delta_norm_unnorm_inverse (obs delta mean std : ℝ) (hstd : 0 ≤ std) :
    predNextObs obs std (normedDelta delta mean std) mean = obs + delta := by
  have hpos : 0 < std + eps := by
    have : (0 : ℝ) < eps := by norm_num [eps]
    linarith
  unfold predNextObs normedDelta
  field_simp
  ring

/-- C8 witness: the inversion theorem applied at a concrete input with zero
standard deviation. -/
theorem delta_norm_unnorm_inverse_witness :
    (0 : ℝ) ≤ 0 ∧ predNextObs 1 0 (normedDelta 2 3 0) 3 = 1 + 2 :=
  ⟨le_refl 0, delta_norm_unnorm_inverse 1 2 3 0 (le_refl 0)⟩

/-- C9: every normalization division in `ModelBasedAgent` is guarded by the
additive constant `eps = 1e-6`: for any data list `l`, the standard
deviation produced by `update_statistics` is nonnegative, the denominator
`sampleStd l + eps` used by `_get_normed_in` and `update` is strictly
positive (so no division by zero occurs and the division is exact, as the
multiplication identities state), and on constant data of length 2 the
standard deviation is exactly 0 while the denominator still equals
`eps > 0`. -/
theorem normalization_denominator_positive (l : List ℝ) (x delta mean : ℝ) :
    0 ≤ sampleStd l ∧
    0 < sampleStd l + eps ∧
    getNormedIn x mean (sampleStd l) * (sampleStd l + eps) = x - mean ∧
    normedDelta delta mean (sampleStd l) * (sampleStd l + eps) = delta - mean ∧
    (∀ c : ℝ, sampleStd [c, c] = 0 ∧ 0 < sampleStd [c, c] + eps) := by
  have hnn : 0 ≤ sampleStd l := Real.sqrt_nonneg _
  have hpos : 0 < sampleStd l + eps := by
    have : (0 : ℝ) < eps := by norm_num [eps]
    linarith
  have hne : sampleStd l + eps ≠ 0 := ne_of_gt hpos
  refine ⟨hnn, hpos, ?_, ?_, ?_⟩
  · unfold getNormedIn
    field_simp
  · unfold normedDelta
    field_simp
  · intro c
    have hmean : sampleMean [c, c] = c := by
      unfold sampleMean
      norm_num
    have hstd : sampleStd [c, c] = 0 := by
      unfold sampleStd
      rw [hmean]
      norm_num
    refine ⟨hstd, ?_⟩
    rw [hstd]
    norm_num [eps]

/-- C10: `DQNAgent.update` overwrites the target critic exactly on steps
with `step % target_update_period == 0`: on those steps the target critic
becomes the online critic's current (post-gradient-step) parameters, the
returned `"update_target"` metric is true exactly then, on all other steps
the target critic is untouched, the online critic always takes exactly one
gradient step, and at construction the target critic is initialized to the
online critic's parameters. -/
theorem dqn_update_target_iff {P : Type} (criticStep : P → P)
    (targetUpdatePeriod : ℕ) (_hperiod : 0 < targetUpdatePeriod)
    (s : DQNCritics P) (step : ℕ) (c0 t0 : P) :
    ((dqnUpdate criticStep targetUpdatePeriod s step).2 = true ↔
      step % targetUpdatePeriod = 0) ∧
    (dqnUpdate criticStep targetUpdatePeriod s step).1.targetCritic =
      (if step % targetUpdatePeriod = 0 then
        (dqnUpdate criticStep targetUpdatePeriod s step).1.critic
      else s.targetCritic) ∧
    (dqnUpdate criticStep targetUpdatePeriod s step).1.critic =
      criticStep s.critic ∧
    (dqnInit c0 t0).targetCritic = (dqnInit c0 t0).critic := by
  unfold dqnUpdate dqnInit
  by_cases h : step % targetUpdatePeriod = 0 <;> simp [h, updateTargetCritic]

/-- C10 witness: the target-update theorem applied with parameter type `ℕ`,
period 2, at steps where the condition holds. -/
theorem dqn_update_target_iff_witness :
    0 < 2 ∧
    (((dqnUpdate (fun p => p + 1) 2 ⟨0, 5⟩ 4).2 = true ↔ 4 % 2 = 0) ∧
      (dqnUpdate (fun p => p + 1) 2 ⟨0, 5⟩ 4).1.targetCritic =
        (if 4 % 2 = 0 then (dqnUpdate (fun p => p + 1) 2 ⟨0, 5⟩ 4).1.critic
        else (5 : ℕ)) ∧
      (dqnUpdate (fun p => p + 1) 2 (⟨0, 5⟩ : DQNCritics ℕ) 4).1.critic = 0 + 1 ∧
      (dqnInit (3 : ℕ) 7).targetCritic = (dqnInit (3 : ℕ) 7).critic) :=
  ⟨by decide, dqn_update_target_iff (fun p => p + 1) 2 (by decide) ⟨0, 5⟩ 4 3 7⟩

end

end HWRL
